import Mathlib

/-!
Verification of the GraphTool benchmark (GraphTool/source/Main.cpp).

The program fills a GPU buffer with `pointCount` random 2D points, then on
each frame of the benchmark loop rewrites a `batchSize`-sized window of the
buffer (`AlterBuffer`) until the cursor is exhausted, timing every frame and
finally printing the mean frame time and the frame count.

Shallow embedding choices:
  - `float` coordinate values are embedded as exact rationals (`ℚ`); the
    buffer is a `List ℚ` with one entry per 4-byte float slot, so a point
    occupies two consecutive slots (8 bytes, the stride hard-coded in
    `AlterBuffer`).
  - `std::default_random_engine` is embedded as libstdc++'s choice,
    `minstd_rand0`: the linear congruential generator
    x ↦ 16807·x mod (2³¹−1).  `std::uniform_real_distribution<float>(a,b)`
    draws one engine value per variate (generate_canonical with k = 1) and
    returns a + canonical·(b−a), with canonical = (x − min)/(max − min + 1).
  - `unsigned int` arithmetic (offset, frame, byte offsets) is carried out
    in `Nat` with explicit reduction mod 2³².
-/

/-- Modulus of minstd_rand0 (std::default_random_engine), 2³¹ − 1. -/
def lcgM : Nat := 2147483647

/-- One step of the engine: in C++, operator() advances the state to
16807·x mod m and returns the new state. -/
def lcgStep (s : Nat) : Nat := 16807 * s % lcgM

/-- C++ LCG seeding (increment c = 0): state = seed mod m, replaced by 1
when that is 0.  The default constructor uses default_seed = 1. -/
def lcgSeed (seed : Nat) : Nat := if seed % lcgM = 0 then 1 else seed % lcgM

/-- 2³², the modulus of `unsigned int` arithmetic. -/
def U32 : Nat := 4294967296

/-- generate_canonical for one engine draw x: (x − min)/(max − min + 1)
with min = 1, max = m − 1, hence (x − 1)/(m − 1), exact over ℚ. -/
def canonical (s : Nat) : ℚ := ((s : ℚ) - 1) / 2147483646

/-- std::uniform_real_distribution(a, b) applied to one engine draw:
canonical·(b − a) + a. -/
def uniformReal (a b : ℚ) (s : Nat) : ℚ := canonical s * (b - a) + a

/-- The generation loop shared by CreateRandomPointBuffer (lines 145-149)
and AlterBuffer (lines 184-188): for each of n points, push one x sample
then one y sample, each consuming one engine draw. -/
def genPoints (x0 x1 y0 y1 : ℚ) : Nat → Nat → List ℚ
  | 0, _ => []
  | n + 1, s =>
      uniformReal x0 x1 (lcgStep s) ::
      uniformReal y0 y1 (lcgStep (lcgStep s)) ::
      genPoints x0 x1 y0 y1 n (lcgStep (lcgStep s))

/-- Engine state reached after generating i points, starting from state s
(two draws per point). -/
def genState (s : Nat) : Nat → Nat
  | 0 => s
  | i + 1 => lcgStep (lcgStep (genState s i))

/-- The CPU staging vector built by CreateRandomPointBuffer (lines 136-149):
count points, x ~ uniform[-1,0), y ~ uniform[-1,1), default-constructed
engine, i.e. fixed default seed 1. -/
def fillData (count : Nat) : List ℚ := genPoints (-1) 0 (-1) 1 count (lcgSeed 1)

/-- Byte size passed to glBufferData (line 155): buffer.size() · sizeof(float). -/
def fillByteSize (count : Nat) : Nat := (fillData count).length * 4

/-- A run of the initial fill in an environment whose clock reads t.  The
code never consults the clock or any entropy source (the engine is
default-constructed at line 141), so t is ignored. -/
def fillDataAtTime (_t : Nat) (count : Nat) : List ℚ :=
  fillData count

/-- The fresh window contents generated by AlterBuffer (lines 177-188):
batchSize points, x ~ uniform[0,1), y ~ uniform[-1,1), engine seeded
with the seed argument. -/
def alterData (batchSize seed : Nat) : List ℚ :=
  genPoints 0 1 (-1) 1 batchSize (lcgSeed seed)

/-- glBufferSubData on a buffer of 4-byte slots: replace the slots
[start, start + data.length) in place; out-of-range calls raise
GL_INVALID_VALUE and write nothing. -/
def subData (buf : List ℚ) (start : Nat) (data : List ℚ) : List ℚ :=
  if start + data.length ≤ buf.length then
    buf.take start ++ data ++ buf.drop (start + data.length)
  else
    buf

/-- AlterBuffer (lines 175-196): generate the window data, write it at byte
offset offset·8 (slot offset·8/4), and advance the cursor by batchSize.
The byte offset and the cursor are unsigned int expressions, hence the
mod 2³²; the program's constants keep them far from wrapping. -/
def AlterBuffer (buf : List ℚ) (offset batchSize seed : Nat) : List ℚ × Nat :=
  (subData buf (offset * 8 % U32 / 4) (alterData batchSize seed),
   (offset + batchSize) % U32)

/- ### Engine-range lemmas -/

theorem lcgM_pos : 0 < lcgM := by decide

/-- 1407677000 is the inverse of the multiplier 16807 modulo 2³¹ − 1. -/
theorem lcg_mul_inv : 16807 * 1407677000 = 11017 * lcgM + 1 := by decide

theorem lcgStep_lt (s : Nat) : lcgStep s < lcgM :=
  Nat.mod_lt _ lcgM_pos

theorem lcgStep_pos (s : Nat) (h1 : 1 ≤ s) (h2 : s < lcgM) : 1 ≤ lcgStep s := by
  rcases Nat.eq_zero_or_pos (lcgStep s) with h0 | hp
  · exfalso
    have hdvd : lcgM ∣ 16807 * s := by
      have := Nat.dvd_of_mod_eq_zero h0
      simpa [lcgStep] using this
    have hdvd2 : lcgM ∣ 1407677000 * (16807 * s) := Dvd.dvd.mul_left hdvd _
    have heq : 1407677000 * (16807 * s) = lcgM * (11017 * s) + s := by
      have : 1407677000 * (16807 * s) = (16807 * 1407677000) * s := by ring
      rw [this, lcg_mul_inv]; ring
    have hdvds : lcgM ∣ s := by
      have := (Nat.dvd_add_right (Dvd.intro (11017 * s) rfl)).mp (heq ▸ hdvd2)
      exact this
    have : s = 0 := Nat.eq_zero_of_dvd_of_lt hdvds h2
    omega
  · exact hp

theorem lcgSeed_pos (seed : Nat) : 1 ≤ lcgSeed seed := by
  unfold lcgSeed
  split <;> omega

theorem lcgSeed_lt (seed : Nat) : lcgSeed seed < lcgM := by
  unfold lcgSeed
  split
  · decide
  · exact Nat.mod_lt _ lcgM_pos

theorem canonical_nonneg (s : Nat) (h1 : 1 ≤ s) : 0 ≤ canonical s := by
  unfold canonical
  apply div_nonneg
  · have : (1 : ℚ) ≤ (s : ℚ) := by exact_mod_cast h1
    linarith
  · norm_num

theorem canonical_lt_one (s : Nat) (h2 : s < lcgM) : canonical s < 1 := by
  unfold canonical
  rw [div_lt_one (by norm_num)]
  have : (s : ℚ) ≤ 2147483646 := by
    have : s ≤ 2147483646 := by
      unfold lcgM at h2; omega
    exact_mod_cast this
  linarith

theorem uniformReal_mem (a b : ℚ) (s : Nat) (hab : a < b)
    (h1 : 1 ≤ s) (h2 : s < lcgM) :
    a ≤ uniformReal a b s ∧ uniformReal a b s < b := by
  have hc0 := canonical_nonneg s h1
  have hc1 := canonical_lt_one s h2
  unfold uniformReal
  constructor
  · nlinarith
  · nlinarith

/-- A valid engine state stays valid after one step. -/
theorem lcgStep_valid (s : Nat) (h1 : 1 ≤ s) (h2 : s < lcgM) :
    1 ≤ lcgStep s ∧ lcgStep s < lcgM :=
  ⟨lcgStep_pos s h1 h2, lcgStep_lt s⟩

/- ### Generation-loop lemmas -/

theorem genPoints_length (x0 x1 y0 y1 : ℚ) (n s : Nat) :
    (genPoints x0 x1 y0 y1 n s).length = 2 * n := by
  induction n generalizing s with
  | zero => simp [genPoints]
  | succ m ih => simp [genPoints, ih]; omega

/-- Every element of the generation loop output, started from a valid engine
state, lies in the x range at even positions and in the y range at odd
positions. -/
theorem genPoints_ranges (x0 x1 y0 y1 : ℚ) (hx : x0 < x1) (hy : y0 < y1) :
    ∀ (n s j : Nat) (q : ℚ), 1 ≤ s → s < lcgM →
      (genPoints x0 x1 y0 y1 n s)[j]? = some q →
      (j % 2 = 0 → x0 ≤ q ∧ q < x1) ∧ (j % 2 = 1 → y0 ≤ q ∧ q < y1) := by
  intro n
  induction n with
  | zero => intro s j q _ _ h; simp [genPoints] at h
  | succ m ih =>
    intro s j q h1 h2 h
    obtain ⟨hs1, hs2⟩ := lcgStep_valid s h1 h2
    obtain ⟨ht1, ht2⟩ := lcgStep_valid _ hs1 hs2
    match j with
    | 0 =>
      simp [genPoints] at h
      subst h
      exact ⟨fun _ => uniformReal_mem x0 x1 _ hx hs1 hs2, by omega⟩
    | 1 =>
      simp [genPoints] at h
      subst h
      exact ⟨by omega, fun _ => uniformReal_mem y0 y1 _ hy ht1 ht2⟩
    | k + 2 =>
      have h' : (genPoints x0 x1 y0 y1 m (lcgStep (lcgStep s)))[k]? = some q := by
        simpa [genPoints] using h
      have := ih (lcgStep (lcgStep s)) k q ht1 ht2 h'
      have hpar : (k + 2) % 2 = k % 2 := by omega
      rw [hpar]
      exact this

theorem genState_shift (s i : Nat) :
    genState (lcgStep (lcgStep s)) i = lcgStep (lcgStep (genState s i)) := by
  induction i with
  | zero => rfl
  | succ k ih => simp [genState, ih]

/-- Positional characterisation: the i-th generated point consists of the x
sample at index 2i and the y sample at index 2i+1, produced from the engine
state reached after i points. -/
theorem genPoints_getElem (x0 x1 y0 y1 : ℚ) :
    ∀ (n s i : Nat), i < n →
      (genPoints x0 x1 y0 y1 n s)[2 * i]? =
        some (uniformReal x0 x1 (lcgStep (genState s i))) ∧
      (genPoints x0 x1 y0 y1 n s)[2 * i + 1]? =
        some (uniformReal y0 y1 (lcgStep (lcgStep (genState s i)))) := by
  intro n
  induction n with
  | zero => intro s i h; omega
  | succ m ih =>
    intro s i h
    match i with
    | 0 => simp [genPoints, genState]
    | k + 1 =>
      have hk : k < m := by omega
      have := ih (lcgStep (lcgStep s)) k hk
      have e1 : 2 * (k + 1) = 2 * k + 1 + 1 := by omega
      rw [e1]
      simp only [genPoints, List.getElem?_cons_succ]
      rw [genState, ← genState_shift]
      exact this

/- ### subData lemmas -/

theorem subData_length (buf data : List ℚ) (start : Nat)
    (h : start + data.length ≤ buf.length) :
    (subData buf start data).length = buf.length := by
  unfold subData
  rw [if_pos h]
  simp
  omega

/-- Element-wise behaviour of an in-range subData call: the written slot
range takes its values from data, every other slot is unchanged. -/
theorem subData_getElem (buf data : List ℚ) (start j : Nat)
    (h : start + data.length ≤ buf.length) :
    (subData buf start data)[j]? =
      if start ≤ j ∧ j < start + data.length then data[j - start]?
      else buf[j]? := by
  unfold subData
  rw [if_pos h]
  have hstart : start ≤ buf.length := by omega
  have hlen_take : (buf.take start).length = start := by
    simp [Nat.min_eq_left hstart]
  rw [List.append_assoc]
  by_cases hj1 : j < start
  · rw [List.getElem?_append_left (by omega : j < (buf.take start).length)]
    rw [List.getElem?_take_of_lt hj1]
    rw [if_neg (by omega)]
  · rw [List.getElem?_append_right (by omega : (buf.take start).length ≤ j)]
    rw [hlen_take]
    by_cases hj2 : j < start + data.length
    · rw [List.getElem?_append_left (by omega : j - start < data.length)]
      rw [if_pos ⟨by omega, hj2⟩]
    · rw [List.getElem?_append_right (by omega : data.length ≤ j - start)]
      rw [List.getElem?_drop]
      rw [if_neg (by omega)]
      congr 1
      omega

/-- Extracting exactly the written window of an in-range subData call
returns the written data. -/
theorem subData_window (buf data : List ℚ) (start : Nat)
    (h : start + data.length ≤ buf.length) :
    ((subData buf start data).drop start).take data.length = data := by
  unfold subData
  rw [if_pos h]
  have hstart : start ≤ buf.length := by omega
  have hlen_take : (buf.take start).length = start := by
    simp [Nat.min_eq_left hstart]
  rw [List.append_assoc, List.drop_left' hlen_take, List.take_left]

/- ### The benchmark loop (main, lines 39-76) -/

/-- The state carried across iterations of the while loop: the window-close
flag read at line 42, the cursor, the frame counter, the accumulated sum,
the buffer contents, plus ghost counters for the number of AlterBuffer
calls (muts) and of render passes (draws). -/
structure LoopState where
  close : Bool
  offset : Nat
  frame : Nat
  sum : ℚ
  buf : List ℚ
  muts : Nat
  draws : Nat
deriving DecidableEq

/-- The state just before the first loop check: frame = 0, offset = 0,
sum = 0, buffer freshly filled by CreateRandomPointBuffer. -/
def loopInit (pc : Nat) : LoopState :=
  ⟨false, 0, 0, 0, fillData pc, 0, 0⟩

/-- One iteration of the while body (lines 44-72), benchmark mode on.
ext models a window-close event delivered by glfwPollEvents; dt is the
elapsed time measured for this frame.  The unsigned comparison at line 49
guards the AlterBuffer call; otherwise glfwSetWindowShouldClose is invoked.
The render pass, frame increment, and sum accumulation run in either case. -/
def loopStep (pc bs : Nat) (ext : Bool) (dt : ℚ) (s : LoopState) : LoopState :=
  let s1 : LoopState := if ext then { s with close := true } else s
  let s2 : LoopState :=
    if (s1.offset + bs) % U32 > pc then
      { s1 with close := true }
    else
      let r := AlterBuffer s1.buf s1.offset bs s1.frame
      { s1 with buf := r.1, offset := r.2, muts := s1.muts + 1 }
  { s2 with frame := (s2.frame + 1) % U32, sum := s2.sum + dt,
            draws := s2.draws + 1 }

/-- Fuel-indexed execution of `while (!glfwWindowShouldClose(window))`:
i is the index of the next iteration (used to look up its event and its
elapsed time). -/
def loopRun (pc bs : Nat) (ext : Nat → Bool) (dt : Nat → ℚ) :
    Nat → Nat → LoopState → LoopState
  | 0, _, s => s
  | fuel + 1, i, s =>
      if s.close then s
      else loopRun pc bs ext dt fuel (i + 1) (loopStep pc bs (ext i) (dt i) s)

/- ### Loop execution lemmas -/

theorem loopRun_closed (pc bs : Nat) (ext : Nat → Bool) (dt : Nat → ℚ)
    (fuel i : Nat) (s : LoopState) (h : s.close = true) :
    loopRun pc bs ext dt fuel i s = s := by
  cases fuel <;> simp [loopRun, h]

theorem loopRun_add (pc bs : Nat) (ext : Nat → Bool) (dt : Nat → ℚ) :
    ∀ (f g i : Nat) (s : LoopState),
      loopRun pc bs ext dt (f + g) i s =
        loopRun pc bs ext dt g (i + f) (loopRun pc bs ext dt f i s) := by
  intro f
  induction f with
  | zero => intro g i s; simp [loopRun]
  | succ f ih =>
    intro g i s
    have hadd : f + 1 + g = (f + g) + 1 := by omega
    rw [hadd]
    by_cases hc : s.close
    · rw [loopRun_closed pc bs ext dt (f + 1) i s hc,
          loopRun_closed pc bs ext dt ((f + g) + 1) i s hc,
          loopRun_closed pc bs ext dt g (i + (f + 1)) s hc]
    · have hc' : s.close = false := by simpa using hc
      show loopRun pc bs ext dt ((f + g) + 1) i s = _
      rw [show loopRun pc bs ext dt ((f + g) + 1) i s =
            loopRun pc bs ext dt (f + g) (i + 1)
              (loopStep pc bs (ext i) (dt i) s) by simp [loopRun, hc'],
          show loopRun pc bs ext dt (f + 1) i s =
            loopRun pc bs ext dt f (i + 1)
              (loopStep pc bs (ext i) (dt i) s) by simp [loopRun, hc'],
          ih g (i + 1) (loopStep pc bs (ext i) (dt i) s)]
      congr 1
      omega

/-- Shape of one iteration that passes the cursor check and calls
AlterBuffer. -/
theorem loopStep_mut (pc bs : Nat) (dt : ℚ) (s : LoopState)
    (hng : ¬ (s.offset + bs) % U32 > pc) :
    loopStep pc bs false dt s =
      { s with offset := (s.offset + bs) % U32,
               buf := (AlterBuffer s.buf s.offset bs s.frame).1,
               muts := s.muts + 1,
               frame := (s.frame + 1) % U32,
               sum := s.sum + dt,
               draws := s.draws + 1 } := by
  simp [loopStep, AlterBuffer, if_neg hng]

/-- Shape of one iteration that finds the cursor exhausted and requests
loop exit, still performing the render pass and the timing bookkeeping. -/
theorem loopStep_exh (pc bs : Nat) (dt : ℚ) (s : LoopState)
    (hg : (s.offset + bs) % U32 > pc) :
    loopStep pc bs false dt s =
      { s with close := true,
               frame := (s.frame + 1) % U32,
               sum := s.sum + dt,
               draws := s.draws + 1 } := by
  simp [loopStep, if_pos hg]

/-- While the cursor is not exhausted, k iterations of the benchmark loop
(no external close event) leave the loop running with cursor k·bs, frame
counter k, k AlterBuffer calls, k render passes, and the sum of the first
k frame times. -/
theorem loopRun_bench_char (pc bs : Nat) (dt : Nat → ℚ) (hbs : 0 < bs)
    (hov : pc + bs < U32) :
    ∀ k, k ≤ pc / bs →
      (loopRun pc bs (fun _ => false) dt k 0 (loopInit pc)).close = false ∧
      (loopRun pc bs (fun _ => false) dt k 0 (loopInit pc)).offset = k * bs ∧
      (loopRun pc bs (fun _ => false) dt k 0 (loopInit pc)).frame = k ∧
      (loopRun pc bs (fun _ => false) dt k 0 (loopInit pc)).muts = k ∧
      (loopRun pc bs (fun _ => false) dt k 0 (loopInit pc)).draws = k ∧
      (loopRun pc bs (fun _ => false) dt k 0 (loopInit pc)).sum =
        ∑ i ∈ Finset.range k, dt i := by
  intro k
  induction k with
  | zero =>
    intro _
    simp [loopRun, loopInit]
  | succ k ih =>
    intro hk
    obtain ⟨hclose, hoff, hframe, hmuts, hdraws, hsum⟩ := ih (by omega)
    have hpc : pc < U32 := by omega
    have hkbs : k * bs + bs ≤ pc := by
      have h1 : (k + 1) * bs ≤ (pc / bs) * bs := Nat.mul_le_mul_right bs hk
      have h2 : (pc / bs) * bs ≤ pc := Nat.div_mul_le_self pc bs
      have h3 : (k + 1) * bs = k * bs + bs := by ring
      omega
    have hkU : k + 1 < U32 := by
      have : k + 1 ≤ pc / bs := hk
      have : pc / bs ≤ pc := Nat.div_le_self pc bs
      omega
    have hrun : loopRun pc bs (fun _ => false) dt (k + 1) 0 (loopInit pc) =
        loopStep pc bs false (dt k)
          (loopRun pc bs (fun _ => false) dt k 0 (loopInit pc)) := by
      rw [loopRun_add pc bs (fun _ => false) dt k 1 0 (loopInit pc)]
      simp [loopRun, hclose]
    have hmod : (k * bs + bs) % U32 = k * bs + bs :=
      Nat.mod_eq_of_lt (by omega)
    have hng : ¬ ((loopRun pc bs (fun _ => false) dt k 0
        (loopInit pc)).offset + bs) % U32 > pc := by
      rw [hoff, hmod]
      omega
    rw [hrun, loopStep_mut pc bs (dt k) _ hng]
    refine ⟨hclose, ?_, ?_, ?_, ?_, ?_⟩
    · show ((loopRun pc bs (fun _ => false) dt k 0
        (loopInit pc)).offset + bs) % U32 = (k + 1) * bs
      rw [hoff, hmod]
      ring
    · show ((loopRun pc bs (fun _ => false) dt k 0
        (loopInit pc)).frame + 1) % U32 = k + 1
      rw [hframe]
      exact Nat.mod_eq_of_lt hkU
    · show (loopRun pc bs (fun _ => false) dt k 0
        (loopInit pc)).muts + 1 = k + 1
      rw [hmuts]
    · show (loopRun pc bs (fun _ => false) dt k 0
        (loopInit pc)).draws + 1 = k + 1
      rw [hdraws]
    · show (loopRun pc bs (fun _ => false) dt k 0
        (loopInit pc)).sum + dt k = ∑ i ∈ Finset.range (k + 1), dt i
      rw [hsum, Finset.sum_range_succ]

/-- With fuel past the exhaustion point, the benchmark loop has closed:
cursor at (pc/bs)·bs, pc/bs AlterBuffer calls, pc/bs + 1 frames and render
passes, and the first pc/bs + 1 frame times summed. -/
theorem loopRun_bench_final (pc bs : Nat) (dt : Nat → ℚ) (hbs : 0 < bs)
    (hov : pc + bs < U32) :
    ∀ fuel, pc / bs + 1 ≤ fuel →
      (loopRun pc bs (fun _ => false) dt fuel 0 (loopInit pc)).close = true ∧
      (loopRun pc bs (fun _ => false) dt fuel 0 (loopInit pc)).offset =
        (pc / bs) * bs ∧
      (loopRun pc bs (fun _ => false) dt fuel 0 (loopInit pc)).frame =
        pc / bs + 1 ∧
      (loopRun pc bs (fun _ => false) dt fuel 0 (loopInit pc)).muts =
        pc / bs ∧
      (loopRun pc bs (fun _ => false) dt fuel 0 (loopInit pc)).draws =
        pc / bs + 1 ∧
      (loopRun pc bs (fun _ => false) dt fuel 0 (loopInit pc)).sum =
        ∑ i ∈ Finset.range (pc / bs + 1), dt i := by
  have hpc : pc < U32 := by omega
  obtain ⟨hclose, hoff, hframe, hmuts, hdraws, hsum⟩ :=
    loopRun_bench_char pc bs dt hbs hov (pc / bs) (le_refl _)
  have hqbs : (pc / bs) * bs ≤ pc := Nat.div_mul_le_self pc bs
  have hdle : pc / bs ≤ pc := Nat.div_le_self pc bs
  have hrem : pc % bs < bs := Nat.mod_lt pc hbs
  have hdm : (pc / bs) * bs + pc % bs = pc := by
    rw [Nat.mul_comm]
    exact Nat.div_add_mod pc bs
  have hmod : ((pc / bs) * bs + bs) % U32 = (pc / bs) * bs + bs :=
    Nat.mod_eq_of_lt (by omega)
  have hguard : ((loopRun pc bs (fun _ => false) dt (pc / bs) 0
      (loopInit pc)).offset + bs) % U32 > pc := by
    rw [hoff, hmod]
    omega
  have hstep : loopRun pc bs (fun _ => false) dt (pc / bs + 1) 0
      (loopInit pc) = loopStep pc bs false (dt (pc / bs))
        (loopRun pc bs (fun _ => false) dt (pc / bs) 0 (loopInit pc)) := by
    rw [loopRun_add pc bs (fun _ => false) dt (pc / bs) 1 0 (loopInit pc)]
    simp [loopRun, hclose]
  have hstep2 := hstep.trans (loopStep_exh pc bs (dt (pc / bs)) _ hguard)
  intro fuel hfuel
  have hsplit : fuel = (pc / bs + 1) + (fuel - (pc / bs + 1)) := by omega
  rw [hsplit, loopRun_add pc bs (fun _ => false) dt (pc / bs + 1)
    (fuel - (pc / bs + 1)) 0 (loopInit pc), hstep2,
    loopRun_closed pc bs (fun _ => false) dt _ _ _ rfl]
  refine ⟨rfl, hoff, ?_, hmuts, ?_, ?_⟩
  · show ((loopRun pc bs (fun _ => false) dt (pc / bs) 0
      (loopInit pc)).frame + 1) % U32 = pc / bs + 1
    rw [hframe]
    exact Nat.mod_eq_of_lt (by omega)
  · show (loopRun pc bs (fun _ => false) dt (pc / bs) 0
      (loopInit pc)).draws + 1 = pc / bs + 1
    rw [hdraws]
  · show (loopRun pc bs (fun _ => false) dt (pc / bs) 0
      (loopInit pc)).sum + dt (pc / bs) = ∑ i ∈ Finset.range (pc / bs + 1), dt i
    rw [hsum, Finset.sum_range_succ]

/- ### Cursor invariant, arbitrary event schedule -/

/-- The cursor invariant: the offset never exceeds pointCount and always
equals the number of completed AlterBuffer calls times batchSize. -/
def LoopInv (pc bs : Nat) (s : LoopState) : Prop :=
  s.offset ≤ pc ∧ s.offset = s.muts * bs

theorem loopStep_offset (pc bs : Nat) (ext : Bool) (dt : ℚ) (s : LoopState) :
    (loopStep pc bs ext dt s).offset =
      if (s.offset + bs) % U32 > pc then s.offset
      else (s.offset + bs) % U32 := by
  cases ext <;> by_cases hg : (s.offset + bs) % U32 > pc <;>
    simp [loopStep, AlterBuffer, hg]

theorem loopStep_muts (pc bs : Nat) (ext : Bool) (dt : ℚ) (s : LoopState) :
    (loopStep pc bs ext dt s).muts =
      if (s.offset + bs) % U32 > pc then s.muts else s.muts + 1 := by
  cases ext <;> by_cases hg : (s.offset + bs) % U32 > pc <;>
    simp [loopStep, hg]

theorem loopStep_inv (pc bs : Nat) (ext : Bool) (dt : ℚ) (s : LoopState)
    (hov : pc + bs < U32) (hinv : LoopInv pc bs s) :
    LoopInv pc bs (loopStep pc bs ext dt s) ∧
    s.offset ≤ (loopStep pc bs ext dt s).offset ∧
    ((loopStep pc bs ext dt s).muts = s.muts + 1 →
      (loopStep pc bs ext dt s).offset = s.offset + bs ∧
      s.offset + bs ≤ pc) := by
  obtain ⟨h1, h2⟩ := hinv
  have hmod : (s.offset + bs) % U32 = s.offset + bs :=
    Nat.mod_eq_of_lt (by omega)
  rw [LoopInv, loopStep_offset, loopStep_muts]
  by_cases hg : (s.offset + bs) % U32 > pc
  · rw [if_pos hg, if_pos hg]
    exact ⟨⟨h1, h2⟩, le_refl _, fun h => absurd h (by omega)⟩
  · rw [if_neg hg, if_neg hg]
    have hle : s.offset + bs ≤ pc := by omega
    exact ⟨⟨by omega, by rw [hmod, h2]; ring⟩, by omega,
      fun _ => ⟨hmod, hle⟩⟩

theorem loopRun_inv (pc bs : Nat) (ext : Nat → Bool) (dt : Nat → ℚ)
    (hov : pc + bs < U32) :
    ∀ (fuel i : Nat) (s : LoopState), LoopInv pc bs s →
      LoopInv pc bs (loopRun pc bs ext dt fuel i s) ∧
      s.offset ≤ (loopRun pc bs ext dt fuel i s).offset := by
  intro fuel
  induction fuel with
  | zero => intro i s h; exact ⟨h, le_refl _⟩
  | succ f ih =>
    intro i s h
    by_cases hc : s.close = true
    · rw [loopRun_closed pc bs ext dt (f + 1) i s hc]
      exact ⟨h, le_refl _⟩
    · have hc' : s.close = false := by simpa using hc
      have hunfold : loopRun pc bs ext dt (f + 1) i s =
          loopRun pc bs ext dt f (i + 1) (loopStep pc bs (ext i) (dt i) s) := by
        simp [loopRun, hc']
      rw [hunfold]
      obtain ⟨hsi, hsle, _⟩ := loopStep_inv pc bs (ext i) (dt i) s hov h
      obtain ⟨hri, hrle⟩ := ih (i + 1) (loopStep pc bs (ext i) (dt i) s) hsi
      exact ⟨hri, le_trans hsle hrle⟩

theorem loopInit_inv (pc bs : Nat) : LoopInv pc bs (loopInit pc) := by
  constructor <;> simp [loopInit]

/- ### The final report (lines 75-76) -/

/-- Values a float expression can print as: a finite value, an infinity,
or NaN. -/
inductive FloatVal where
  | val (q : ℚ)
  | posInf
  | negInf
  | nan
deriving DecidableEq

/-- IEEE float division specialised to the cases the report can hit: a
denominator of zero yields NaN (0/0) or a signed infinity, never a trap;
otherwise the exact quotient. -/
def fdiv (a b : ℚ) : FloatVal :=
  if b = 0 then
    if a = 0 then FloatVal.nan else if 0 < a then FloatVal.posInf
    else FloatVal.negInf
  else
    FloatVal.val (a / b)

/-- One line of the program's standard output. -/
inductive OutLine where
  | meanMs (v : FloatVal)
  | frameCount (n : Nat)
deriving DecidableEq

/-- The two cout statements at lines 75-76: first sum / float(frame), then
frame. -/
def reportLines (sum : ℚ) (frame : Nat) : List OutLine :=
  [OutLine.meanMs (fdiv sum (frame : ℚ)), OutLine.frameCount frame]

/- ### Startup (Initialize, lines 83-95, and the calls at lines 29-33) -/

/-- Observable startup events: the unconditional call sequence of
Initialize and main's setup, a hypothetical diagnostic message, entry into
the benchmark loop, and a crash through an unloaded GL function pointer. -/
inductive StartEv where
  | glfwInitEv
  | createWindowEv
  | makeCurrentEv
  | gladLoadEv
  | diagnosticEv
  | loopEnterEv
  | crashNullFnEv
deriving DecidableEq

/-- Modelled from the source: Initialize (lines 83-95) performs glfwInit,
glfwCreateWindow, glfwMakeContextCurrent and gladLoadGLLoader with no
check of any return value, no diagnostic output and no early exit; main
then calls CreateShaderProgram.  windowOk is the environment's answer to
glfwCreateWindow.  When it is false no context becomes current, glad loads
nothing, and the first GL call inside CreateShaderProgram goes through a
null function pointer, crashing the process before the loop. -/
def startupTrace (windowOk : Bool) : List StartEv :=
  [StartEv.glfwInitEv, StartEv.createWindowEv, StartEv.makeCurrentEv,
   StartEv.gladLoadEv] ++
  (if windowOk then [StartEv.loopEnterEv] else [StartEv.crashNullFnEv])

/- ### Claim theorems -/

/-- C1: with benchmark mode enabled and batchSize > 0 (no external close
event, unsigned arithmetic far from wrapping, as the program's constants
2²⁶ and 2¹⁴ guarantee), the loop reaches the close-requested state after
exactly ⌊pointCount / batchSize⌋ AlterBuffer calls, and an AlterBuffer
call is only ever performed from a state whose cursor still satisfies
offset + batchSize ≤ pointCount. -/
theorem benchmark_loop_termination (pc bs fuel : Nat) (dt : Nat → ℚ)
    (hbs : 0 < bs) (hov : pc + bs < U32) (hfuel : pc / bs + 1 ≤ fuel) :
    (loopRun pc bs (fun _ => false) dt fuel 0 (loopInit pc)).close = true ∧
    (loopRun pc bs (fun _ => false) dt fuel 0 (loopInit pc)).muts =
      pc / bs ∧
    (∀ k,
      (loopStep pc bs false (dt k)
          (loopRun pc bs (fun _ => false) dt k 0 (loopInit pc))).muts =
        (loopRun pc bs (fun _ => false) dt k 0 (loopInit pc)).muts + 1 →
      (loopRun pc bs (fun _ => false) dt k 0 (loopInit pc)).offset + bs
        ≤ pc) := by
  obtain ⟨hclose, _, _, hmuts, _, _⟩ :=
    loopRun_bench_final pc bs dt hbs hov fuel hfuel
  refine ⟨hclose, hmuts, ?_⟩
  intro k hmut
  have hinv := (loopRun_inv pc bs (fun _ => false) dt hov k 0 (loopInit pc)
    (loopInit_inv pc bs)).1
  exact ((loopStep_inv pc bs false (dt k) _ hov hinv).2.2 hmut).2

/-- Witness for C1 at pointCount = 1024, batchSize = 256, fuel 5. -/
theorem benchmark_loop_termination_witness :
    (0 < 256 ∧ 1024 + 256 < U32 ∧ 1024 / 256 + 1 ≤ 5) ∧
    ((loopRun 1024 256 (fun _ => false) (fun _ => (0 : ℚ)) 5 0
        (loopInit 1024)).close = true ∧
      (loopRun 1024 256 (fun _ => false) (fun _ => (0 : ℚ)) 5 0
        (loopInit 1024)).muts = 1024 / 256 ∧
      (∀ k,
        (loopStep 1024 256 false (0 : ℚ)
            (loopRun 1024 256 (fun _ => false) (fun _ => (0 : ℚ)) k 0
              (loopInit 1024))).muts =
          (loopRun 1024 256 (fun _ => false) (fun _ => (0 : ℚ)) k 0
            (loopInit 1024)).muts + 1 →
        (loopRun 1024 256 (fun _ => false) (fun _ => (0 : ℚ)) k 0
          (loopInit 1024)).offset + 256 ≤ 1024)) :=
  ⟨⟨by decide, by decide, by decide⟩,
    benchmark_loop_termination 1024 256 5 (fun _ => (0 : ℚ))
      (by decide) (by decide) (by decide)⟩

/-- C3: in every state of the benchmark loop reachable under any event
schedule, the cursor satisfies 0 ≤ offset ≤ pointCount, equals the number
of completed AlterBuffer calls times batchSize, is monotonically
non-decreasing in the iteration count, and advances by exactly batchSize
(with no 2³² wrap-around) on each iteration that performs a mutation. -/
theorem cursor_invariant (pc bs : Nat) (ext : Nat → Bool) (dt : Nat → ℚ)
    (hbs : 0 < bs) (hov : pc + bs < U32) :
    ∀ fuel,
      (loopRun pc bs ext dt fuel 0 (loopInit pc)).offset ≤ pc ∧
      (loopRun pc bs ext dt fuel 0 (loopInit pc)).offset =
        (loopRun pc bs ext dt fuel 0 (loopInit pc)).muts * bs ∧
      (∀ f2, fuel ≤ f2 →
        (loopRun pc bs ext dt fuel 0 (loopInit pc)).offset ≤
          (loopRun pc bs ext dt f2 0 (loopInit pc)).offset) ∧
      ((loopStep pc bs (ext fuel) (dt fuel)
          (loopRun pc bs ext dt fuel 0 (loopInit pc))).muts =
        (loopRun pc bs ext dt fuel 0 (loopInit pc)).muts + 1 →
        (loopStep pc bs (ext fuel) (dt fuel)
          (loopRun pc bs ext dt fuel 0 (loopInit pc))).offset =
          (loopRun pc bs ext dt fuel 0 (loopInit pc)).offset + bs) := by
  intro fuel
  have hinv := (loopRun_inv pc bs ext dt hov fuel 0 (loopInit pc)
    (loopInit_inv pc bs)).1
  refine ⟨hinv.1, hinv.2, ?_, ?_⟩
  · intro f2 hf2
    have hsplit : f2 = fuel + (f2 - fuel) := by omega
    rw [hsplit, loopRun_add pc bs ext dt fuel (f2 - fuel) 0 (loopInit pc)]
    exact (loopRun_inv pc bs ext dt hov (f2 - fuel) (0 + fuel) _ hinv).2
  · intro hmut
    exact ((loopStep_inv pc bs (ext fuel) (dt fuel) _ hov hinv).2.2 hmut).1

/-- Witness for C3 at pointCount = 1024, batchSize = 256. -/
theorem cursor_invariant_witness :
    (0 < 256 ∧ 1024 + 256 < U32) ∧
    (∀ fuel,
      (loopRun 1024 256 (fun _ => false) (fun _ => (0 : ℚ)) fuel 0
        (loopInit 1024)).offset ≤ 1024 ∧
      (loopRun 1024 256 (fun _ => false) (fun _ => (0 : ℚ)) fuel 0
        (loopInit 1024)).offset =
        (loopRun 1024 256 (fun _ => false) (fun _ => (0 : ℚ)) fuel 0
          (loopInit 1024)).muts * 256 ∧
      (∀ f2, fuel ≤ f2 →
        (loopRun 1024 256 (fun _ => false) (fun _ => (0 : ℚ)) fuel 0
          (loopInit 1024)).offset ≤
          (loopRun 1024 256 (fun _ => false) (fun _ => (0 : ℚ)) f2 0
            (loopInit 1024)).offset) ∧
      ((loopStep 1024 256 false (0 : ℚ)
          (loopRun 1024 256 (fun _ => false) (fun _ => (0 : ℚ)) fuel 0
            (loopInit 1024))).muts =
        (loopRun 1024 256 (fun _ => false) (fun _ => (0 : ℚ)) fuel 0
          (loopInit 1024)).muts + 1 →
        (loopStep 1024 256 false (0 : ℚ)
          (loopRun 1024 256 (fun _ => false) (fun _ => (0 : ℚ)) fuel 0
            (loopInit 1024))).offset =
          (loopRun 1024 256 (fun _ => false) (fun _ => (0 : ℚ)) fuel 0
            (loopInit 1024)).offset + 256)) :=
  ⟨⟨by decide, by decide⟩,
    cursor_invariant 1024 256 (fun _ => false) (fun _ => (0 : ℚ))
      (by decide) (by decide)⟩

/-- C10: under benchmark mode with no external close signal, the iteration
that finds the cursor exhausted still performs a render pass and timing
bookkeeping: on exit the frame counter is ⌊pointCount / batchSize⌋ + 1,
exactly one more than the AlterBuffer call count, every counted frame
performed a render pass, and the sum accumulates all
⌊pointCount / batchSize⌋ + 1 frame times, the exhaustion frame included. -/
theorem final_frame_count (pc bs fuel : Nat) (dt : Nat → ℚ)
    (hbs : 0 < bs) (hov : pc + bs < U32) (hfuel : pc / bs + 1 ≤ fuel) :
    (loopRun pc bs (fun _ => false) dt fuel 0 (loopInit pc)).frame =
      pc / bs + 1 ∧
    (loopRun pc bs (fun _ => false) dt fuel 0 (loopInit pc)).frame =
      (loopRun pc bs (fun _ => false) dt fuel 0 (loopInit pc)).muts + 1 ∧
    (loopRun pc bs (fun _ => false) dt fuel 0 (loopInit pc)).draws =
      (loopRun pc bs (fun _ => false) dt fuel 0 (loopInit pc)).frame ∧
    (loopRun pc bs (fun _ => false) dt fuel 0 (loopInit pc)).sum =
      ∑ i ∈ Finset.range (pc / bs + 1), dt i := by
  obtain ⟨_, _, hframe, hmuts, hdraws, hsum⟩ :=
    loopRun_bench_final pc bs dt hbs hov fuel hfuel
  exact ⟨hframe, by rw [hframe, hmuts], by rw [hdraws, hframe], hsum⟩

/-- Witness for C10 at pointCount = 1024, batchSize = 256, fuel 5. -/
theorem final_frame_count_witness :
    (0 < 256 ∧ 1024 + 256 < U32 ∧ 1024 / 256 + 1 ≤ 5) ∧
    ((loopRun 1024 256 (fun _ => false) (fun _ => (0 : ℚ)) 5 0
        (loopInit 1024)).frame = 1024 / 256 + 1 ∧
      (loopRun 1024 256 (fun _ => false) (fun _ => (0 : ℚ)) 5 0
        (loopInit 1024)).frame =
        (loopRun 1024 256 (fun _ => false) (fun _ => (0 : ℚ)) 5 0
          (loopInit 1024)).muts + 1 ∧
      (loopRun 1024 256 (fun _ => false) (fun _ => (0 : ℚ)) 5 0
        (loopInit 1024)).draws =
        (loopRun 1024 256 (fun _ => false) (fun _ => (0 : ℚ)) 5 0
          (loopInit 1024)).frame ∧
      (loopRun 1024 256 (fun _ => false) (fun _ => (0 : ℚ)) 5 0
        (loopInit 1024)).sum =
        ∑ i ∈ Finset.range (1024 / 256 + 1), (fun _ => (0 : ℚ)) i) :=
  ⟨⟨by decide, by decide, by decide⟩,
    final_frame_count 1024 256 5 (fun _ => (0 : ℚ))
      (by decide) (by decide) (by decide)⟩

/-- Written-window extraction: an in-range AlterBuffer call puts exactly
alterData at the window slots. -/
theorem alterBuffer_window (count offset bs seed : Nat) (buf : List ℚ)
    (hlen : buf.length = 2 * count) (hrange : offset + bs ≤ count)
    (hsz : count * 8 < U32) :
    ((AlterBuffer buf offset bs seed).1.drop (2 * offset)).take (2 * bs) =
      alterData bs seed := by
  have hdata : (alterData bs seed).length = 2 * bs :=
    genPoints_length 0 1 (-1) 1 bs (lcgSeed seed)
  have h8 : offset * 8 < U32 := by omega
  have hstart : offset * 8 % U32 / 4 = 2 * offset := by
    rw [Nat.mod_eq_of_lt h8]; omega
  have hin : 2 * offset + (alterData bs seed).length ≤ buf.length := by
    rw [hdata, hlen]; omega
  simp only [AlterBuffer, hstart]
  rw [← hdata]
  exact subData_window buf (alterData bs seed) (2 * offset) hin

/-- C2: for offset + batchSize ≤ count (with the buffer and byte offsets in
the unsigned range, as the program's pointCount = 2²⁶ guarantees),
AlterBuffer overwrites exactly the byte range
[offset·8, (offset+batchSize)·8) — slot j covers bytes [4j, 4j+4) — with
the generated window data, leaves every other slot bit-identical, keeps
the buffer length unchanged, and advances the cursor by batchSize. -/
theorem alterBuffer_byte_isolation (count offset bs seed : Nat)
    (buf : List ℚ) (hlen : buf.length = 2 * count)
    (hrange : offset + bs ≤ count) (hsz : count * 8 < U32) :
    (AlterBuffer buf offset bs seed).2 = offset + bs ∧
    (AlterBuffer buf offset bs seed).1.length = buf.length ∧
    (∀ j, offset * 8 ≤ 4 * j → 4 * j < (offset + bs) * 8 →
      (AlterBuffer buf offset bs seed).1[j]? =
        (alterData bs seed)[j - 2 * offset]?) ∧
    (∀ j, ¬ (offset * 8 ≤ 4 * j ∧ 4 * j < (offset + bs) * 8) →
      (AlterBuffer buf offset bs seed).1[j]? = buf[j]?) := by
  have hdata : (alterData bs seed).length = 2 * bs :=
    genPoints_length 0 1 (-1) 1 bs (lcgSeed seed)
  have h8 : offset * 8 < U32 := by omega
  have hstart : offset * 8 % U32 / 4 = 2 * offset := by
    rw [Nat.mod_eq_of_lt h8]; omega
  have hin : 2 * offset + (alterData bs seed).length ≤ buf.length := by
    rw [hdata, hlen]; omega
  refine ⟨?_, ?_, ?_, ?_⟩
  · show (offset + bs) % U32 = offset + bs
    exact Nat.mod_eq_of_lt (by omega)
  · show (subData buf (offset * 8 % U32 / 4) (alterData bs seed)).length =
      buf.length
    rw [hstart]
    exact subData_length buf (alterData bs seed) (2 * offset) hin
  · intro j hj1 hj2
    show (subData buf (offset * 8 % U32 / 4) (alterData bs seed))[j]? = _
    rw [hstart, subData_getElem buf (alterData bs seed) (2 * offset) j hin,
      if_pos ⟨by omega, by rw [hdata]; omega⟩]
  · intro j hj
    show (subData buf (offset * 8 % U32 / 4) (alterData bs seed))[j]? = _
    rw [hstart, subData_getElem buf (alterData bs seed) (2 * offset) j hin,
      if_neg (by rw [hdata]; omega)]

/-- Witness for C2: count = 2, offset = 1, batchSize = 1, seed = 0, on the
buffer [10, 11, 12, 13]. -/
theorem alterBuffer_byte_isolation_witness :
    (([(10 : ℚ), 11, 12, 13] : List ℚ).length = 2 * 2 ∧ 1 + 1 ≤ 2 ∧
      2 * 8 < U32) ∧
    ((AlterBuffer [(10 : ℚ), 11, 12, 13] 1 1 0).2 = 1 + 1 ∧
      (AlterBuffer [(10 : ℚ), 11, 12, 13] 1 1 0).1.length =
        ([(10 : ℚ), 11, 12, 13] : List ℚ).length ∧
      (∀ j, 1 * 8 ≤ 4 * j → 4 * j < (1 + 1) * 8 →
        (AlterBuffer [(10 : ℚ), 11, 12, 13] 1 1 0).1[j]? =
          (alterData 1 0)[j - 2 * 1]?) ∧
      (∀ j, ¬ (1 * 8 ≤ 4 * j ∧ 4 * j < (1 + 1) * 8) →
        (AlterBuffer [(10 : ℚ), 11, 12, 13] 1 1 0).1[j]? =
          ([(10 : ℚ), 11, 12, 13] : List ℚ)[j]?)) :=
  ⟨⟨by decide, by decide, by decide⟩,
    alterBuffer_byte_isolation 2 1 1 0 [(10 : ℚ), 11, 12, 13]
      (by decide) (by decide) (by decide)⟩

/-- C4: every x coordinate generated by AlterBuffer lies in [0, 1), every
x coordinate generated by the initial fill lies in [-1, 0), and every y
coordinate generated by either lies in [-1, 1); the two x ranges are the
two distinct half-planes. -/
theorem coordinate_ranges :
    (∀ (bs seed j : Nat) (q : ℚ), (alterData bs seed)[j]? = some q →
      (j % 2 = 0 → 0 ≤ q ∧ q < 1) ∧ (j % 2 = 1 → -1 ≤ q ∧ q < 1)) ∧
    (∀ (count j : Nat) (q : ℚ), (fillData count)[j]? = some q →
      (j % 2 = 0 → -1 ≤ q ∧ q < 0) ∧ (j % 2 = 1 → -1 ≤ q ∧ q < 1)) := by
  constructor
  · intro bs seed j q h
    exact genPoints_ranges 0 1 (-1) 1 (by norm_num) (by norm_num) bs
      (lcgSeed seed) j q (lcgSeed_pos seed) (lcgSeed_lt seed) h
  · intro count j q h
    exact genPoints_ranges (-1) 0 (-1) 1 (by norm_num) (by norm_num) count
      (lcgSeed 1) j q (lcgSeed_pos 1) (lcgSeed_lt 1) h

/-- Witness for C4: the first x coordinate of a one-point window (seed 0)
and the first x coordinate of a one-point initial fill. -/
theorem coordinate_ranges_witness :
    (alterData 1 0)[0]? = some (uniformReal 0 1 (lcgStep (lcgSeed 0))) ∧
    (0 ≤ uniformReal 0 1 (lcgStep (lcgSeed 0)) ∧
      uniformReal 0 1 (lcgStep (lcgSeed 0)) < 1) ∧
    (fillData 1)[0]? = some (uniformReal (-1) 0 (lcgStep (lcgSeed 1))) ∧
    (-1 ≤ uniformReal (-1) 0 (lcgStep (lcgSeed 1)) ∧
      uniformReal (-1) 0 (lcgStep (lcgSeed 1)) < 0) :=
  ⟨rfl, (coordinate_ranges.1 1 0 0 _ rfl).1 rfl, rfl,
    (coordinate_ranges.2 1 0 _ rfl).1 rfl⟩

/-- C5: AlterBuffer is deterministic in its seed: two calls with the same
seed and batchSize write byte-identical window contents, whatever the
offsets, target buffers, or prior history. -/
theorem alterBuffer_seed_determinism (bs seed o1 o2 c1 c2 : Nat)
    (b1 b2 : List ℚ) (hl1 : b1.length = 2 * c1) (hl2 : b2.length = 2 * c2)
    (hr1 : o1 + bs ≤ c1) (hr2 : o2 + bs ≤ c2)
    (hs1 : c1 * 8 < U32) (hs2 : c2 * 8 < U32) :
    ((AlterBuffer b1 o1 bs seed).1.drop (2 * o1)).take (2 * bs) =
      ((AlterBuffer b2 o2 bs seed).1.drop (2 * o2)).take (2 * bs) :=
  (alterBuffer_window c1 o1 bs seed b1 hl1 hr1 hs1).trans
    (alterBuffer_window c2 o2 bs seed b2 hl2 hr2 hs2).symm

/-- Witness for C5: same seed 0 and batchSize 1 written at offset 0 of
[5, 6] and at offset 1 of [1, 2, 3, 4]. -/
theorem alterBuffer_seed_determinism_witness :
    (([(5 : ℚ), 6] : List ℚ).length = 2 * 1 ∧
      ([(1 : ℚ), 2, 3, 4] : List ℚ).length = 2 * 2 ∧
      0 + 1 ≤ 1 ∧ 1 + 1 ≤ 2 ∧ 1 * 8 < U32 ∧ 2 * 8 < U32) ∧
    ((AlterBuffer [(5 : ℚ), 6] 0 1 0).1.drop (2 * 0)).take (2 * 1) =
      ((AlterBuffer [(1 : ℚ), 2, 3, 4] 1 1 0).1.drop (2 * 1)).take (2 * 1) :=
  ⟨⟨by decide, by decide, by decide, by decide, by decide, by decide⟩,
    alterBuffer_seed_determinism 1 0 0 1 1 2 [(5 : ℚ), 6] [(1 : ℚ), 2, 3, 4]
      (by decide) (by decide) (by decide) (by decide) (by decide) (by decide)⟩

/-- C6 counterexample: the claim expects two independent runs of the
initial fill to differ, but the engine is default-constructed with the
fixed default seed, so two runs in environments with different clock
readings produce identical buffer contents. -/
theorem fill_reproducible_counterexample :
    fillDataAtTime 0 4 = fillDataAtTime 999 4 := rfl

/-- C6 amended: the initial bulk fill uses a default-constructed engine,
seeded with the fixed default seed 1 rather than time or entropy; it is
reproducible — any two runs (whatever the environment's clock) produce
identical buffer contents, namely the sequence generated from state 1. -/
theorem fill_fixed_seed (t1 t2 count : Nat) :
    fillDataAtTime t1 count = fillDataAtTime t2 count ∧
    fillDataAtTime t1 count = genPoints (-1) 0 (-1) 1 count 1 := by
  refine ⟨rfl, ?_⟩
  have h : lcgSeed 1 = 1 := by decide
  rw [fillDataAtTime, fillData, h]

/-- C7: on loop exit the program writes exactly two lines, the mean frame
time sum / frame first and the frame count second; with zero frames (and
hence a zero sum) the division is 0/0, which under float semantics is NaN
and is printed rather than crashing the process. -/
theorem report_two_lines (sum : ℚ) (frame : Nat) :
    (reportLines sum frame).length = 2 ∧
    (reportLines sum frame)[0]? =
      some (OutLine.meanMs (fdiv sum (frame : ℚ))) ∧
    (reportLines sum frame)[1]? = some (OutLine.frameCount frame) ∧
    (frame = 0 → sum = 0 →
      (reportLines sum frame)[0]? =
        some (OutLine.meanMs FloatVal.nan)) := by
  refine ⟨rfl, rfl, rfl, ?_⟩
  intro h1 h2
  subst h1; subst h2
  simp [reportLines, fdiv]

/-- Witness for C7 at sum = 0, frame = 0. -/
theorem report_two_lines_witness :
    (reportLines 0 0).length = 2 ∧
    (reportLines 0 0)[0]? = some (OutLine.meanMs (fdiv 0 ((0 : Nat) : ℚ))) ∧
    (reportLines 0 0)[1]? = some (OutLine.frameCount 0) ∧
    (reportLines 0 0)[0]? = some (OutLine.meanMs FloatVal.nan) :=
  ⟨(report_two_lines 0 0).1, (report_two_lines 0 0).2.1,
    (report_two_lines 0 0).2.2.1, (report_two_lines 0 0).2.2.2 rfl rfl⟩

/-- C8 counterexample: when window creation fails, the startup sequence
emits no diagnostic and never performs a deliberate abort — the stop is a
crash through an unloaded GL function pointer — so the claim that the
process "aborts with a diagnostic" is false. -/
theorem startup_no_diagnostic_counterexample :
    (startupTrace false).count StartEv.diagnosticEv = 0 ∧
    StartEv.crashNullFnEv ∈ startupTrace false ∧
    StartEv.loopEnterEv ∉ startupTrace false := by decide

/-- C8 amended: Initialize performs no failure check: it emits no
diagnostic in any outcome; window creation is attempted exactly once
(never retried); the benchmark loop is entered exactly when creation
succeeded, and on failure the process instead crashes through a null GL
function pointer before the loop. -/
theorem startup_failure_behaviour (ok : Bool) :
    (startupTrace ok).count StartEv.createWindowEv = 1 ∧
    (startupTrace ok).count StartEv.diagnosticEv = 0 ∧
    (StartEv.loopEnterEv ∈ startupTrace ok ↔ ok = true) ∧
    (StartEv.crashNullFnEv ∈ startupTrace ok ↔ ok = false) := by
  cases ok <;> decide

/-- C9: the staging vector holds exactly 2·count floats, the byte size
handed to glBufferData is count · 2 · sizeof(float), and the layout is
interleaved: slot 2i is the i-th x sample, slot 2i+1 the i-th y sample,
drawn in that order from the engine. -/
theorem buffer_size_and_layout (count : Nat) :
    (fillData count).length = 2 * count ∧
    fillByteSize count = count * 2 * 4 ∧
    (∀ i, i < count →
      (fillData count)[2 * i]? =
        some (uniformReal (-1) 0 (lcgStep (genState (lcgSeed 1) i))) ∧
      (fillData count)[2 * i + 1]? =
        some (uniformReal (-1) 1 (lcgStep (lcgStep (genState (lcgSeed 1) i))))) := by
  refine ⟨genPoints_length (-1) 0 (-1) 1 count (lcgSeed 1), ?_, ?_⟩
  · show (fillData count).length * 4 = count * 2 * 4
    rw [fillData, genPoints_length]
    ring
  · intro i hi
    exact genPoints_getElem (-1) 0 (-1) 1 count (lcgSeed 1) i hi

/-- Witness for C9 at count = 1, i = 0. -/
theorem buffer_size_and_layout_witness :
    (fillData 1).length = 2 * 1 ∧
    fillByteSize 1 = 1 * 2 * 4 ∧
    ((fillData 1)[2 * 0]? =
        some (uniformReal (-1) 0 (lcgStep (genState (lcgSeed 1) 0))) ∧
      (fillData 1)[2 * 0 + 1]? =
        some (uniformReal (-1) 1 (lcgStep (lcgStep (genState (lcgSeed 1) 0))))) :=
  ⟨(buffer_size_and_layout 1).1, (buffer_size_and_layout 1).2.1,
    (buffer_size_and_layout 1).2.2 0 (by decide)⟩
